import Mathlib

/-!
Shallow embedding of `transcode_large_videos.py`: the per-file skip-decision
pipeline, numeric parsers, estimator, post-encode verification and
finalization logic, history index, backend selector and report-closing
state machine.

Python `float` arithmetic is modelled exactly by `PyFloat`, an
unnormalized fraction type whose operations are kernel-computable (all
float computations the claims touch are exact — decimal literals are taken
at their decimal value).  `PyFloat.toRat` interprets a value as a rational
number and bridge lemmas connect the computable comparisons with the
rational-number ordering.  Python `int(...)` is truncation toward zero,
and the external world (filesystem, subprocesses, interactive input) is
passed in as explicit parameters.
-/

namespace Transcode

/-! ### Exact model of Python float values -/

/-- An exact Python-float value, as an unnormalized fraction.  The
denominator is a natural number; every value the embedded program builds
has a positive denominator (`0` would model a `ZeroDivisionError`). -/
structure PyFloat where
  num : ℤ
  den : ℕ
deriving DecidableEq, Repr

namespace PyFloat

/-- The float value of a natural number. -/
def ofNat (n : ℕ) : PyFloat := ⟨n, 1⟩

/-- The float value of an integer. -/
def ofInt (n : ℤ) : PyFloat := ⟨n, 1⟩

/-- Float addition. -/
def add (a b : PyFloat) : PyFloat := ⟨a.num * b.den + b.num * a.den, a.den * b.den⟩

/-- Float subtraction. -/
def sub (a b : PyFloat) : PyFloat := ⟨a.num * b.den - b.num * a.den, a.den * b.den⟩

/-- Float multiplication. -/
def mul (a b : PyFloat) : PyFloat := ⟨a.num * b.num, a.den * b.den⟩

/-- Float division (the divisor's sign moves into the numerator so the
denominator stays a natural number). -/
def div (a b : PyFloat) : PyFloat :=
  if b.num < 0 then ⟨-(a.num * b.den), a.den * (-b.num).toNat⟩
  else ⟨a.num * b.den, a.den * b.num.toNat⟩

/-- Python `abs`. -/
def pyabs (a : PyFloat) : PyFloat := ⟨|a.num|, a.den⟩

/-- The comparison `a <= b`, by cross-multiplication (valid because
denominators are nonnegative, and positive on every value the program
builds). -/
def le (a b : PyFloat) : Bool := a.num * b.den ≤ b.num * a.den

/-- The comparison `a < b`. -/
def lt (a b : PyFloat) : Bool := a.num * b.den < b.num * a.den

/-- Python `int(...)` on a float: truncation toward zero. -/
def trunc (a : PyFloat) : ℤ := a.num.tdiv a.den

/-- The rational number a `PyFloat` denotes. -/
def toRat (a : PyFloat) : ℚ := (a.num : ℚ) / (a.den : ℚ)

/-- The float `0.0`. -/
def zero : PyFloat := ⟨0, 1⟩

end PyFloat

/-- Truncation toward zero of a rational number — the mathematical meaning
of Python `int(...)` on an exact value. -/
def truncQ (q : ℚ) : ℤ := if 0 ≤ q then ⌊q⌋ else ⌈q⌉


/-! ### Python string primitives, modelled on `List Char` -/

/-- Whitespace recognised by Python `str.strip()` (ASCII subset). -/
def pyIsSpace (c : Char) : Bool :=
  c = ' ' || c = '\t' || c = '\n' || c = '\r' || c = '\x0b' || c = '\x0c'

/-- Python `str.strip()`. -/
def pyStrip (l : List Char) : List Char :=
  ((l.dropWhile pyIsSpace).reverse.dropWhile pyIsSpace).reverse

/-- Lower-case a single ASCII character, as Python `str.lower()` does. -/
def pyLowerChar (c : Char) : Char :=
  if 'A' ≤ c && c ≤ 'Z' then Char.ofNat (c.toNat + 32) else c

/-- Upper-case a single ASCII character, as Python `str.upper()` does. -/
def pyUpperChar (c : Char) : Char :=
  if 'a' ≤ c && c ≤ 'z' then Char.ofNat (c.toNat - 32) else c

/-- Python `str.lower()`. -/
def pyLower (l : List Char) : List Char := l.map pyLowerChar

/-- `s.strip().lower()` as used on interactive responses and report actions. -/
def stripLower (s : String) : String := ⟨pyLower (pyStrip s.data)⟩

/-- `s.lower()` on a whole string. -/
def lowerStr (s : String) : String := ⟨pyLower s.data⟩

/-- Numeric value of a digit string (the characters are `'0'..'9'`). -/
def digitsVal (l : List Char) : ℕ := l.foldl (fun a c => 10 * a + (c.toNat - 48)) 0

/-- The regex group `(\d+(?:\.\d+)?)` followed by Python `float(...)` on the
matched text: parse a leading decimal literal, return its exact value and
the unconsumed remainder. -/
def parseDecimal (l : List Char) : Option (PyFloat × List Char) :=
  let intPart := l.takeWhile Char.isDigit
  let rest := l.dropWhile Char.isDigit
  if intPart = [] then none
  else
    match rest with
    | '.' :: rest2 =>
      let fracPart := rest2.takeWhile Char.isDigit
      let rest3 := rest2.dropWhile Char.isDigit
      if fracPart = [] then none
      else some (⟨digitsVal intPart * 10 ^ fracPart.length + digitsVal fracPart, 10 ^ fracPart.length⟩, rest3)
    | _ => some (⟨digitsVal intPart, 1⟩, rest)

/-! ### `_parse_size` (source lines 15–36) -/

/-- The regex tail `([KMGTP]?B?)$` of `_parse_size`, case-insensitively. -/
def sizeSuffixOk (l : List Char) : Bool :=
  match l with
  | [] => true
  | [c] => pyUpperChar c ∈ (['K', 'M', 'G', 'T', 'P', 'B'] : List Char)
  | [c1, c2] => pyUpperChar c1 ∈ (['K', 'M', 'G', 'T', 'P'] : List Char) && pyUpperChar c2 = 'B'
  | _ => false

/-- The unit dictionary `u` of `_parse_size`; a missing key (Python
`KeyError`, e.g. for `"PB"`) is `none`. -/
def sizeUnitTable : String → Option ℕ
  | "B" => some 1
  | "KB" => some 1024
  | "K" => some 1024
  | "MB" => some (1024 ^ 2)
  | "M" => some (1024 ^ 2)
  | "GB" => some (1024 ^ 3)
  | "G" => some (1024 ^ 3)
  | "TB" => some (1024 ^ 4)
  | "T" => some (1024 ^ 4)
  | _ => none

/-- `_parse_size`: `none` models a raised `ValueError`/`KeyError`. -/
def _parse_size (s : String) : Option ℤ :=
  match parseDecimal (pyStrip s.data) with
  | none => none
  | some (v, rest) =>
    if sizeSuffixOk rest then
      let suf : String := ⟨rest.map pyUpperChar⟩
      let suf := if suf = "" then "B" else suf
      let suf := if suf ∈ (["K", "M", "G", "T"] : List String) then suf ++ "B" else suf
      match sizeUnitTable suf with
      | some u => some (v.mul (PyFloat.ofNat u)).trunc
      | none => none
    else none

/-! ### `_parse_bitrate` (source lines 55–68) -/

/-- Consume at most one leading character from `cs`, as one `X?` regex atom. -/
def dropOpt (cs : List Char) : List Char → List Char
  | [] => []
  | c :: r => if c ∈ cs then r else c :: r

/-- The regex tail `([kmg]?b?p?s?)$` of `_parse_bitrate` (input already
lower-cased). -/
def bitrateSuffixOk (l : List Char) : Bool :=
  dropOpt ['s'] (dropOpt ['p'] (dropOpt ['b'] (dropOpt ['k', 'm', 'g'] l))) = []

/-- `_parse_bitrate`: `none` models a raised `ValueError`. -/
def _parse_bitrate (s : String) : Option ℤ :=
  let l := (pyLower (pyStrip s.data)).filter (fun c => c ≠ ' ')
  match parseDecimal l with
  | none => none
  | some (v, rest) =>
    if bitrateSuffixOk rest then
      let suf : String := ⟨rest⟩
      let v :=
        if suf ∈ (["k", "kb", "kbps"] : List String) then v.mul (PyFloat.ofNat 1000)
        else if suf ∈ (["m", "mb", "mbps"] : List String) then v.mul (PyFloat.ofNat 1000000)
        else if suf ∈ (["g", "gb", "gbps"] : List String) then v.mul (PyFloat.ofNat 1000000000)
        else v
      some v.trunc
    else none

/-! ### `_ffprobe_duration` (source lines 71–88) -/

/-- Case analysis of one external `ffprobe` invocation, as the `try` block
of `_ffprobe_duration` distinguishes it: the subprocess call (or anything
else inside the `try`) raised; the captured stdout stripped to the empty
string; `float(out)` raised; or `float(out)` produced a value. -/
inductive ProbeOutcome
  | subprocessError
  | emptyOutput
  | unparsableOutput
  | parsedDuration (q : PyFloat)
deriving DecidableEq, Repr

/-- `_ffprobe_duration`: total, returns `0.0` on every failure path. -/
def _ffprobe_duration : ProbeOutcome → PyFloat
  | .subprocessError => PyFloat.zero
  | .emptyOutput => PyFloat.zero
  | .unparsableOutput => PyFloat.zero
  | .parsedDuration q => q

/-! ### Per-candidate front end of the main loop (source lines 578–602) -/

/-- Source lines 600–602: `bps` is computed from size and duration only
when the probed duration is positive. -/
def bitrate_of (orig_size : ℕ) (dur : PyFloat) : Option PyFloat :=
  if PyFloat.lt PyFloat.zero dur then some (((PyFloat.ofNat orig_size).mul (PyFloat.ofNat 8)).div dur)
  else none

/-! ### Skip-decision chain (source lines 632–644) -/

/-- The nested skip-reason decision of the main loop, exactly as the
source nests it: the size check is reached only when no bitrate threshold
is configured, or when it is configured but the bitrate is unknown and
bitrate-only gating is off. -/
def skip_reason (min_bps : Option ℤ) (bitrate_only : Bool) (bps : Option PyFloat)
    (orig_size : ℕ) (min_bytes : ℤ) : Option String :=
  match min_bps with
  | some mb =>
    match bps with
    | some b => if PyFloat.lt b (PyFloat.ofInt mb) then some "bitrate_below_threshold" else none
    | none =>
      if bitrate_only then some "no_duration"
      else if (orig_size : ℤ) < min_bytes then some "size_below_threshold"
      else none
  | none => if (orig_size : ℤ) < min_bytes then some "size_below_threshold" else none

/-- The skip-reason decision as claim C2's sentence reads it: a flat
first-match chain in which the size check is the `else` of the two
bitrate rules.  Kept separate from `skip_reason` (which follows the
source) so the two can be compared. -/
def skip_reason_claimed (min_bps : Option ℤ) (bitrate_only : Bool) (bps : Option PyFloat)
    (orig_size : ℕ) (min_bytes : ℤ) : Option String :=
  if min_bps.isSome && bps.isSome &&
      PyFloat.lt (bps.getD PyFloat.zero) (PyFloat.ofInt (min_bps.getD 0)) then
    some "bitrate_below_threshold"
  else if min_bps.isSome && !bps.isSome && bitrate_only then some "no_duration"
  else if (orig_size : ℤ) < min_bytes then some "size_below_threshold"
  else none

/-- One candidate's pre-encode verdict. -/
inductive FrontVerdict
  | skipped (reason : String)
  | proceed (dur : PyFloat) (bps : Option PyFloat)
deriving DecidableEq, Repr

/-- The per-candidate front end of the main loop (source lines 578–666):
history fast-skip, conditional probe, bitrate computation, skip chain.
The second component records whether `_ffprobe_duration` was invoked for
this candidate.  `structured_report` is `args.report_format in ("csv",
"json")`. -/
def candidate_step (use_history : Bool) (hist : List String) (pathStr : String)
    (print_bitrate structured_report dry_run : Bool)
    (min_bps : Option ℤ) (bitrate_only : Bool)
    (probe : ProbeOutcome) (orig_size : ℕ) (min_bytes : ℤ) :
    FrontVerdict × Bool :=
  if use_history && hist.contains (lowerStr pathStr) then (.skipped "history", false)
  else
    let needProbe := print_bitrate || min_bps.isSome || structured_report || dry_run
    let dur := if needProbe then _ffprobe_duration probe else PyFloat.zero
    let bps := bitrate_of orig_size dur
    match skip_reason min_bps bitrate_only bps orig_size min_bytes with
    | some r => (.skipped r, needProbe)
    | none => (.proceed dur bps, needProbe)

/-! ### Estimator (source lines 481–484 and 608–626) -/

/-- Source line 484: the codec-dependent default estimate ratio. -/
def default_est_ratio (codec : String) : PyFloat :=
  if codec = "libx265" then ⟨6, 10⟩ else ⟨85, 100⟩

/-- Python truthiness of an optional string argument. -/
def truthyStr : Option String → Bool
  | some s => s ≠ ""
  | none => false

/-- The target-mode branch of the estimator (source lines 611–618):
parse the configured target video bitrate (`none` on failure, leaving the
estimate unknown), add the audio bitrate (`or 0`), scale by duration. -/
def estimateTarget (tvbStr : String) (audio_bps : Option ℤ) (dur : PyFloat) : Option ℤ :=
  (_parse_bitrate tvbStr).map (fun v =>
    (((PyFloat.ofInt (v + audio_bps.getD 0)).mul dur).div (PyFloat.ofNat 8)).trunc)

/-- The ratio-mode branch of the estimator (source lines 619–624):
scale the implied bitrate by the (defaulted) ratio, floor at the audio
bitrate when it is known, scale by duration. -/
def estimateRatio (est_ratio : Option PyFloat) (codec : String) (audio_bps : Option ℤ)
    (dur : PyFloat) (bps : Option PyFloat) : Option ℤ :=
  match bps with
  | some b =>
    let ratio := est_ratio.getD (default_est_ratio codec)
    let total := b.mul ratio
    let total :=
      match audio_bps with
      | some a => if PyFloat.lt total (PyFloat.ofInt a) then PyFloat.ofInt a else total
      | none => total
    some ((total.mul dur).div (PyFloat.ofNat 8)).trunc
  | none => none

/-- The estimator (source lines 608–626): `est_out`.  `none` is an unknown
estimate. -/
def estimate (est_mode : String) (est_target_v_bitrate : Option String)
    (est_ratio : Option PyFloat) (codec : String) (audio_bps : Option ℤ)
    (dur : PyFloat) (bps : Option PyFloat) : Option ℤ :=
  if PyFloat.lt PyFloat.zero dur then
    if est_mode = "target" && truthyStr est_target_v_bitrate then
      estimateTarget (est_target_v_bitrate.getD "") audio_bps dur
    else estimateRatio est_ratio codec audio_bps dur bps
  else none

/-- Source lines 625–626: `est_saved = int(orig_size - est_out)`. -/
def est_saved_of (orig_size : ℕ) (est_out : Option ℤ) : Option ℤ :=
  est_out.map (fun e => (orig_size : ℤ) - e)

/-! ### Verification and safety gate (source lines 757 and 779–795) -/

/-- Source line 757: `new_size >= orig_size * (1.0 - args.min_saving / 100.0)`. -/
def savings_insufficient (orig_size new_size : ℕ) (min_saving : PyFloat) : Bool :=
  PyFloat.le
    ((PyFloat.ofNat orig_size).mul ((PyFloat.ofNat 1).sub (min_saving.div (PyFloat.ofNat 100))))
    (PyFloat.ofNat new_size)

/-- Source line 781: both re-probed durations known (positive) and within
`0.5` seconds of each other. -/
def durations_match (orig_dur_check out_dur_check : PyFloat) : Bool :=
  PyFloat.lt PyFloat.zero orig_dur_check && PyFloat.lt PyFloat.zero out_dur_check &&
    PyFloat.le ((orig_dur_check.sub out_dur_check).pyabs) ⟨1, 2⟩

/-- Source lines 788–795: the effective keep-original decision.  `resp` is
what `input()` returned (`""` when it raised). -/
def effect_no_delete (no_delete confirm_delete : Bool) (dm : Bool) (resp : String) : Bool :=
  let e := no_delete || !dm
  if !e && confirm_delete then (if stripLower resp ≠ "y" then true else e) else e

/-- Outcome of the post-encode phase for one candidate whose encode
succeeded with a known output size (source lines 757–840). -/
structure PostEncodeResult where
  action : String
  reason : Option String
  tmpDeleted : Bool
  originalDeleted : Bool
  reachedVerification : Bool
deriving DecidableEq, Repr

/-- The post-encode phase (source lines 757–840): savings gate, duration
verification, deletion decision.  `origExists` is `p.exists()` at line
808; the original is unlinked only when that check and the effective
delete decision both hold. -/
def post_encode (orig_size new_size : ℕ) (min_saving : PyFloat)
    (no_delete confirm_delete : Bool) (resp : String)
    (orig_dur_check out_dur_check : PyFloat) (origExists : Bool) : PostEncodeResult :=
  if savings_insufficient orig_size new_size min_saving then
    { action := "skipped", reason := some "insufficient_saving",
      tmpDeleted := true, originalDeleted := false, reachedVerification := false }
  else
    let dm := durations_match orig_dur_check out_dur_check
    let e := effect_no_delete no_delete confirm_delete dm resp
    { action := "processed",
      reason := if dm then none else some "duration_mismatch",
      tmpDeleted := false,
      originalDeleted := !e && origExists,
      reachedVerification := true }

/-! ### History index (source lines 494–541) -/

/-- One record of a prior report, as the history loader reads it:
its `action` string and its `path` (absent or empty paths contribute
nothing). -/
structure HistRecord where
  action : String
  path : Option String
deriving DecidableEq, Repr

/-- Action normalization of the CSV loader branch:
`(row.get("action") or "").strip().lower()`. -/
def actionNormCsv (s : String) : String := stripLower s

/-- Action normalization of the JSON loader branch:
`str(r.get("action", "")).lower()` (no strip). -/
def actionNormJson (s : String) : String := lowerStr s

/-- Source lines 501–502 / 522–527: a prior report is ignored entirely
when it has records and every record's normalized action lies in
`{dry_run, summary, ""}`. -/
def reportSimOnly (norm : String → String) (rows : List HistRecord) : Bool :=
  !(rows.isEmpty) &&
    rows.all (fun r => norm r.action ∈ (["dry_run", "summary", ""] : List String))

/-- The case-folded paths one prior report contributes to the history
index (source lines 501–513 / 522–537).  `str(Path(pth))` is modelled as
the identity on the already-normalized path strings the program itself
wrote. -/
def reportSkippedPaths (norm : String → String) (rows : List HistRecord) : List String :=
  if reportSimOnly norm rows then []
  else
    rows.filterMap (fun r =>
      if norm r.action = "skipped" then
        match r.path with
        | some p => if p = "" then none else some (lowerStr p)
        | none => none
      else none)

/-- The whole history index: union over all discovered CSV reports and all
discovered JSON reports (source lines 494–541). -/
def history_paths (csvReports jsonReports : List (List HistRecord)) : List String :=
  (csvReports.map (reportSkippedPaths actionNormCsv)).flatten ++
    (jsonReports.map (reportSkippedPaths actionNormJson)).flatten

/-! ### `_choose_gpu_backend` (source lines 143–154) -/

/-- `_choose_gpu_backend`: `encs` is the capability set returned by
`_ffmpeg_encoders()`; `gpu = ""` models a falsy preference. -/
def _choose_gpu_backend (cpu_codec gpu : String) (encs : List String) : Option String :=
  if gpu = "" || gpu = "none" then none
  else if gpu = "auto" then
    (["nvenc", "qsv", "amf"] : List String).find? (fun backend =>
      encs.contains ((if cpu_codec = "libx265" then "hevc_" else "h264_") ++ backend))
  else some gpu

/-! ### Report-closing state machine (source lines 438–467) -/

/-- The shared report-writer state the shutdown paths touch: whether the
`json_file` / `csv_file` variables are set (Python truthiness — closing
does not reset them), the chunks written to the report file, whether the
underlying handles were closed, and the `_cleanup_done` guard. -/
structure ReportState where
  jsonFileSome : Bool
  csvFileSome : Bool
  written : List String
  handlesClosed : Bool
  cleanupDone : Bool
deriving DecidableEq, Repr

/-- `_close_report`: returns immediately when `_cleanup_done` is already
set; otherwise writes the closing JSON bracket (JSON mode), flushes and
closes the handles. -/
def _close_report (s : ReportState) : ReportState :=
  if s.cleanupDone then s
  else
    { s with
      cleanupDone := true
      written := if s.jsonFileSome then s.written ++ ["\n]\n"] else s.written
      handlesClosed := true }

/-! ### Paths and `_unique_path` (source lines 104–112, 689–690, 797–819) -/

/-- A filesystem path as this program manipulates it: directory, stem and
suffix (the extensions in play, `.mkv`/`.mp4`, contain no further dot, so
`Path.with_name` re-parses exactly into these fields). -/
structure PathM where
  parent : String
  stem : String
  suffix : String
deriving DecidableEq, Repr

/-- `p.with_name(f"{p.stem}.{i}{p.suffix}")`: the `i`-th uniquifier
candidate of `_unique_path`. -/
def withIdx (p : PathM) (i : ℕ) : PathM :=
  ⟨p.parent, p.stem ++ "." ++ Nat.repr i, p.suffix⟩

/-- The `while True` loop of `_unique_path`, with explicit fuel; `fs` is
the set of existing paths. -/
def uniqueFrom (fs : List PathM) (p : PathM) : ℕ → ℕ → PathM
  | i, 0 => withIdx p i
  | i, fuel + 1 => if withIdx p i ∈ fs then uniqueFrom fs p (i + 1) fuel else withIdx p i

/-- `_unique_path`: the fuel `fs.length + 1` suffices because the
candidates are pairwise distinct, so the loop always finds a free name
within it. -/
def _unique_path (fs : List PathM) (p : PathM) : PathM :=
  if p ∈ fs then uniqueFrom fs p 1 (fs.length + 1) else p

/-- Source lines 689–690: the final destination name
`p.with_name(p.stem + ".transcoded" + out_ext)`. -/
def final_path_of (p : PathM) (out_ext : String) : PathM :=
  ⟨p.parent, p.stem ++ ".transcoded", out_ext⟩

/-- Source lines 797–805: resolve the destination the temporary artifact
will be moved to. -/
def choose_target (fs : List PathM) (p : PathM) (out_ext : String)
    (eff_no_delete : Bool) : PathM :=
  let final_path := final_path_of p out_ext
  if eff_no_delete then
    if final_path = p then _unique_path fs (final_path_of p out_ext)
    else if final_path ∈ fs then _unique_path fs final_path
    else final_path
  else
    if final_path ∈ fs && final_path ≠ p then _unique_path fs final_path else final_path

namespace PyFloat

theorem toRat_ofNat (n : ℕ) : (ofNat n).toRat = n := by
  simp [ofNat, toRat]

theorem toRat_ofInt (n : ℤ) : (ofInt n).toRat = n := by
  simp [ofInt, toRat]

theorem toRat_zero : zero.toRat = 0 := by
  simp [zero, toRat]

theorem toRat_mul (a b : PyFloat) : (a.mul b).toRat = a.toRat * b.toRat := by
  simp only [mul, toRat]
  push_cast
  rw [div_mul_div_comm]

theorem toRat_sub (a b : PyFloat) (ha : a.den ≠ 0) (hb : b.den ≠ 0) :
    (a.sub b).toRat = a.toRat - b.toRat := by
  have ha' : (a.den : ℚ) ≠ 0 := Nat.cast_ne_zero.mpr ha
  have hb' : (b.den : ℚ) ≠ 0 := Nat.cast_ne_zero.mpr hb
  simp only [sub, toRat]
  push_cast
  rw [div_sub_div _ _ ha' hb']
  ring_nf

theorem div_div_core (x y z w : ℚ) : (x * w) / (y * z) = (x / y) / (z / w) := by
  simp only [div_eq_mul_inv, mul_inv, inv_inv]
  ring

theorem toRat_div (a b : PyFloat) : (a.div b).toRat = a.toRat / b.toRat := by
  by_cases h : b.num < 0
  · have h1 : ((-b.num).toNat : ℤ) = -b.num := Int.toNat_of_nonneg (by omega)
    have hcast : (((-b.num).toNat : ℕ) : ℚ) = -(b.num : ℚ) := by exact_mod_cast h1
    simp only [div, toRat, h, if_true]
    push_cast [hcast]
    rw [mul_neg, neg_div_neg_eq, div_div_core]
  · have h1 : (b.num.toNat : ℤ) = b.num := Int.toNat_of_nonneg (by omega)
    have hcast : ((b.num.toNat : ℕ) : ℚ) = (b.num : ℚ) := by exact_mod_cast h1
    simp only [div, toRat, h, if_false]
    push_cast [hcast]
    rw [div_div_core]

theorem toRat_pyabs (a : PyFloat) : a.pyabs.toRat = |a.toRat| := by
  simp only [pyabs, toRat]
  rw [abs_div]
  congr 1
  · push_cast; rfl
  · rw [abs_of_nonneg (by positivity)]

theorem le_iff {a b : PyFloat} (ha : 0 < a.den) (hb : 0 < b.den) :
    a.le b = true ↔ a.toRat ≤ b.toRat := by
  have ha' : (0 : ℚ) < a.den := by exact_mod_cast ha
  have hb' : (0 : ℚ) < b.den := by exact_mod_cast hb
  simp only [le, toRat, decide_eq_true_eq]
  rw [div_le_div_iff₀ ha' hb']
  norm_cast

theorem lt_iff {a b : PyFloat} (ha : 0 < a.den) (hb : 0 < b.den) :
    a.lt b = true ↔ a.toRat < b.toRat := by
  have ha' : (0 : ℚ) < a.den := by exact_mod_cast ha
  have hb' : (0 : ℚ) < b.den := by exact_mod_cast hb
  simp only [lt, toRat, decide_eq_true_eq]
  rw [div_lt_div_iff₀ ha' hb']
  norm_cast

theorem lt_eq_false_iff {a b : PyFloat} (ha : 0 < a.den) (hb : 0 < b.den) :
    a.lt b = false ↔ ¬a.toRat < b.toRat := by
  rw [← lt_iff ha hb]
  simp

/-- Python `int(...)` of an exactly-represented value truncates its
rational value toward zero. -/
theorem trunc_eq_truncQ (a : PyFloat) (h : 0 < a.den) : a.trunc = truncQ a.toRat := by
  have hden : (0 : ℚ) < (a.den : ℚ) := by exact_mod_cast h
  by_cases hnum : 0 ≤ a.num
  · have hq : 0 ≤ a.toRat := by
      unfold toRat
      positivity
    rw [trunc, truncQ, if_pos hq, toRat, Rat.floor_intCast_div_natCast,
      Int.tdiv_eq_ediv hnum (by exact_mod_cast h.le)]
  · have hq : ¬(0 : ℚ) ≤ a.toRat := by
      rw [toRat, not_le]
      apply div_neg_of_neg_of_pos _ hden
      exact_mod_cast (by omega : a.num < 0)
    rw [trunc, truncQ, if_neg hq, toRat]
    have hrw : (a.num : ℚ) / (a.den : ℚ) = -(((-a.num : ℤ) : ℚ) / (a.den : ℚ)) := by
      push_cast; ring
    rw [hrw, Int.ceil_neg, Rat.floor_intCast_div_natCast]
    have htd : a.num.tdiv (a.den : ℤ) = -((-a.num).tdiv (a.den : ℤ)) := by
      rw [Int.neg_tdiv]; ring
    rw [htd, Int.tdiv_eq_ediv (by omega) (by exact_mod_cast h.le)]

end PyFloat

/-! #### Injectivity of the decimal rendering of the uniquifier index -/

/-- `digitsVal` with an arbitrary accumulator. -/
theorem digitsVal_foldl (l : List Char) (a : ℕ) :
    l.foldl (fun a c => 10 * a + (c.toNat - 48)) a =
      a * 10 ^ l.length + digitsVal l := by
  induction l generalizing a with
  | nil => simp [digitsVal]
  | cons c l ih =>
    simp only [List.foldl_cons, List.length_cons, digitsVal]
    rw [ih, ih (10 * 0 + (c.toNat - 48))]
    ring

/-- `digitChar` is inverted by `fun c => c.toNat - 48` on digits. -/
theorem digitChar_val (d : ℕ) (h : d < 10) : (Nat.digitChar d).toNat - 48 = d := by
  interval_cases d <;> decide

/-- `digitsVal` recovers the number rendered by `Nat.toDigitsCore`. -/
theorem digitsVal_toDigitsCore (f : ℕ) :
    ∀ (n : ℕ) (acc : List Char), n < 10 ^ f →
      digitsVal (Nat.toDigitsCore 10 f n acc) = n * 10 ^ acc.length + digitsVal acc := by
  induction f with
  | zero =>
    intro n acc hn
    interval_cases n
    show digitsVal acc = 0 * 10 ^ acc.length + digitsVal acc
    ring
  | succ f ih =>
    intro n acc hn
    rw [Nat.toDigitsCore]
    by_cases h0 : n / 10 = 0
    · rw [if_pos h0]
      have hlt : n < 10 := by omega
      have : n % 10 = n := Nat.mod_eq_of_lt hlt
      simp only [digitsVal, List.foldl_cons]
      rw [digitsVal_foldl, this, digitChar_val n hlt]
      simp only [digitsVal]
      ring
    · rw [if_neg h0]
      have hdiv : n / 10 < 10 ^ f := by
        rw [Nat.div_lt_iff_lt_mul (by norm_num)]
        calc n < 10 ^ (f + 1) := hn
        _ = 10 ^ f * 10 := by ring
      rw [ih (n / 10) _ hdiv]
      simp only [List.length_cons, digitsVal, List.foldl_cons]
      rw [digitsVal_foldl, digitChar_val (n % 10) (Nat.mod_lt n (by norm_num))]
      have : n = 10 * (n / 10) + n % 10 := (Nat.div_add_mod n 10).symm
      calc n / 10 * 10 ^ (acc.length + 1) +
          ((10 * 0 + n % 10) * 10 ^ acc.length + digitsVal acc)
        = (10 * (n / 10) + n % 10) * 10 ^ acc.length + digitsVal acc := by ring
      _ = n * 10 ^ acc.length + digitsVal acc := by rw [← this]

/-- `digitsVal` is a left inverse of `Nat.toDigits 10`. -/
theorem digitsVal_toDigits (n : ℕ) : digitsVal (Nat.toDigits 10 n) = n := by
  rw [Nat.toDigits, digitsVal_toDigitsCore (n + 1) n []
      (Nat.lt_trans (Nat.lt_pow_self (by norm_num) n)
        (Nat.pow_lt_pow_succ (by norm_num)))]
  simp [digitsVal]

/-- Decimal rendering of naturals is injective. -/
theorem nat_repr_injective : Function.Injective Nat.repr := by
  intro m n h
  have hd : Nat.toDigits 10 m = Nat.toDigits 10 n := by
    have := congrArg String.data h
    simpa [Nat.repr, List.asString] using this
  have := congrArg digitsVal hd
  rwa [digitsVal_toDigits, digitsVal_toDigits] at this

/-- Distinct uniquifier indices give distinct candidate paths. -/
theorem withIdx_injective (p : PathM) : Function.Injective (withIdx p) := by
  intro i j h
  have hstem : p.stem ++ "." ++ Nat.repr i = p.stem ++ "." ++ Nat.repr j := by
    have := congrArg PathM.stem h
    simpa [withIdx] using this
  have hdata := congrArg String.data hstem
  simp only [String.data_append] at hdata
  have hrepr := List.append_cancel_left hdata
  exact nat_repr_injective (String.ext hrepr)


/-- Among `fs.length + 1` sequential uniquifier candidates one is always
absent from `fs` (pigeonhole over the distinct candidates). -/
theorem exists_free_idx (fs : List PathM) (p : PathM) :
    ∃ k, k < fs.length + 1 ∧ withIdx p (1 + k) ∉ fs := by
  by_contra hall
  push_neg at hall
  have hsub : ∀ k ∈ Finset.range (fs.length + 1), withIdx p (1 + k) ∈ fs.toFinset := by
    intro k hk
    rw [List.mem_toFinset]
    exact hall k (Finset.mem_range.mp hk)
  have hinj : Set.InjOn (fun k => withIdx p (1 + k)) (Finset.range (fs.length + 1)) := by
    intro i _ j _ hij
    have := withIdx_injective p hij
    omega
  have hcard := Finset.card_le_card_of_injOn _ hsub hinj
  rw [Finset.card_range] at hcard
  have := fs.toFinset_card_le
  omega

/-- If a free candidate lies within the fuel, the `while True` loop of
`_unique_path` returns a path that does not exist. -/
theorem uniqueFrom_not_mem (fs : List PathM) (p : PathM) :
    ∀ (fuel i : ℕ), (∃ k, k < fuel ∧ withIdx p (i + k) ∉ fs) →
      uniqueFrom fs p i fuel ∉ fs := by
  intro fuel
  induction fuel with
  | zero =>
    rintro i ⟨k, hk, _⟩
    omega
  | succ fuel ih =>
    rintro i ⟨k, hk, hfree⟩
    rw [uniqueFrom]
    by_cases hmem : withIdx p i ∈ fs
    · rw [if_pos hmem]
      apply ih
      have hk0 : k ≠ 0 := by
        rintro rfl
        exact hfree (by simpa using hmem)
      refine ⟨k - 1, by omega, ?_⟩
      have harith : i + 1 + (k - 1) = i + k := by omega
      rw [harith]
      exact hfree
    · rw [if_neg hmem]
      exact hmem

/-- `_unique_path` never returns an existing path. -/
theorem unique_path_not_mem (fs : List PathM) (p : PathM) : _unique_path fs p ∉ fs := by
  rw [_unique_path]
  by_cases h : p ∈ fs
  · rw [if_pos h]
    exact uniqueFrom_not_mem fs p _ 1 (exists_free_idx fs p)
  · rw [if_neg h]
    exact h


/-- The `.transcoded` marker makes the computed destination distinct from
the source path. -/
theorem final_path_of_ne (p : PathM) (out_ext : String) : final_path_of p out_ext ≠ p := by
  intro h
  have hstem := congrArg PathM.stem h
  simp only [final_path_of] at hstem
  have hd := congrArg String.data hstem
  rw [String.data_append] at hd
  have hlen := congrArg List.length hd
  rw [List.length_append] at hlen
  have h11 : (".transcoded" : String).data.length = 11 := rfl
  omega

/-! ## Claim theorems -/

/-- C6: the size parser maps `"1GB"`, `"1024MB"` and `"1048576KB"` to the
same byte count, and the bitrate parser maps `"1M"` to 1,000,000,
`"1000k"` to 1,000,000, and `"1Mbps"` to the same value as `"1M"`
(decimal, not binary, scaling for bitrates). -/
theorem c6_numeric_parsing :
    _parse_size "1GB" = some 1073741824 ∧
    _parse_size "1024MB" = _parse_size "1GB" ∧
    _parse_size "1048576KB" = _parse_size "1GB" ∧
    _parse_bitrate "1M" = some 1000000 ∧
    _parse_bitrate "1000k" = some 1000000 ∧
    _parse_bitrate "1Mbps" = _parse_bitrate "1M" := by
  decide

/-- C10: the duration probe is total — every failure path (subprocess
error, empty output, unparsable output) returns `0.0`, the same value a
zero-length file would produce — and every downstream consumer (bitrate
computation, estimator, duration-verification gate) treats a `0.0`
duration as unknown. -/
theorem c10_probe_total_zero_unknown :
    (_ffprobe_duration .subprocessError = PyFloat.zero ∧
      _ffprobe_duration .emptyOutput = PyFloat.zero ∧
      _ffprobe_duration .unparsableOutput = PyFloat.zero) ∧
    (∀ q, _ffprobe_duration (.parsedDuration q) = q) ∧
    (∀ orig_size, bitrate_of orig_size PyFloat.zero = none) ∧
    (∀ est_mode est_target_v_bitrate est_ratio codec audio_bps bps,
      estimate est_mode est_target_v_bitrate est_ratio codec audio_bps PyFloat.zero bps = none) ∧
    (∀ o, durations_match PyFloat.zero o = false ∧ durations_match o PyFloat.zero = false) := by
  refine ⟨⟨rfl, rfl, rfl⟩, fun _ => rfl, fun _ => rfl, fun _ _ _ _ _ _ => rfl, fun o => ⟨rfl, ?_⟩⟩
  simp [durations_match, PyFloat.lt, PyFloat.zero]

/-- C9: the report-closing operation is idempotent — after one invocation
the cleanup guard is set, and any sequence of `n + 1` invocations leaves
the report state (including everything written to the file) exactly as a
single invocation does. -/
theorem c9_close_report_idempotent :
    ∀ (s : ReportState) (n : ℕ),
      _close_report^[n + 1] s = _close_report s ∧
      (_close_report s).cleanupDone = true := by
  have hdone : ∀ s : ReportState, (_close_report s).cleanupDone = true := by
    intro s
    rw [_close_report]
    by_cases h : s.cleanupDone
    · rw [if_pos h]
      exact h
    · rw [if_neg h]
  have hstep : ∀ s : ReportState, _close_report (_close_report s) = _close_report s := by
    intro s
    conv_lhs => rw [_close_report]
    rw [if_pos (hdone s)]
  intro s n
  refine ⟨?_, hdone s⟩
  induction n with
  | zero => rfl
  | succ n ih =>
    rw [Function.iterate_succ_apply', ih, hstep]

/-- C8: with hardware preference `auto` the backend selector tries
`nvenc`, `qsv`, `amf` in that fixed order against the capability set,
keyed by the codec-derived encoder identifier, and falls back to the
software path (`none`) when none is present; a specifically named backend
is returned without any availability check; preference `none` (or a falsy
preference) always yields the software path. -/
theorem c8_backend_selection :
    ∀ (cpu_codec gpu : String) (encs : List String),
      (gpu = "none" → _choose_gpu_backend cpu_codec gpu encs = none) ∧
      (gpu = "" → _choose_gpu_backend cpu_codec gpu encs = none) ∧
      (gpu ≠ "" → gpu ≠ "none" → gpu ≠ "auto" →
        _choose_gpu_backend cpu_codec gpu encs = some gpu) ∧
      (_choose_gpu_backend cpu_codec "auto" encs =
        (if ((if cpu_codec = "libx265" then "hevc_" else "h264_") ++ "nvenc") ∈ encs then
          some "nvenc"
        else if ((if cpu_codec = "libx265" then "hevc_" else "h264_") ++ "qsv") ∈ encs then
          some "qsv"
        else if ((if cpu_codec = "libx265" then "hevc_" else "h264_") ++ "amf") ∈ encs then
          some "amf"
        else none)) := by
  intro cpu_codec gpu encs
  refine ⟨?_, ?_, ?_, ?_⟩
  · rintro rfl
    simp [_choose_gpu_backend]
  · rintro rfl
    simp [_choose_gpu_backend]
  · intro h1 h2 h3
    rw [_choose_gpu_backend, if_neg (by simp [h1, h2]), if_neg h3]
  · rw [_choose_gpu_backend]
    rw [if_neg (by simp), if_pos rfl]
    simp only [List.find?]
    by_cases h1 : ((if cpu_codec = "libx265" then "hevc_" else "h264_") ++ "nvenc") ∈ encs
    · simp [List.contains, List.elem_eq_mem, h1]
    · by_cases h2 : ((if cpu_codec = "libx265" then "hevc_" else "h264_") ++ "qsv") ∈ encs
      · simp [List.contains, List.elem_eq_mem, h1, h2]
      · by_cases h3 : ((if cpu_codec = "libx265" then "hevc_" else "h264_") ++ "amf") ∈ encs
        · simp [List.contains, List.elem_eq_mem, h1, h2, h3]
        · simp [List.contains, List.elem_eq_mem, h1, h2, h3]

/-- C7: on every finalization path the resolved destination never equals
an existing file's path: `_unique_path` always returns a non-existing
path (trying numeric suffixes sequentially), and the chosen move target —
original preserved or original deleted — never collides with an existing
file, so the move overwrites nothing. -/
theorem c7_finalizer_never_overwrites :
    (∀ (fs : List PathM) (q : PathM), _unique_path fs q ∉ fs) ∧
    (∀ (fs : List PathM) (p : PathM) (out_ext : String) (eff_no_delete : Bool),
      choose_target fs p out_ext eff_no_delete ∉ fs) := by
  refine ⟨unique_path_not_mem, ?_⟩
  intro fs p out_ext eff
  rw [choose_target]
  cases eff with
  | true =>
    simp only [if_true]
    by_cases h1 : final_path_of p out_ext = p
    · rw [if_pos h1]
      exact unique_path_not_mem fs _
    · rw [if_neg h1]
      by_cases h2 : final_path_of p out_ext ∈ fs
      · rw [if_pos h2]
        exact unique_path_not_mem fs _
      · rw [if_neg h2]
        exact h2
  | false =>
    simp only [Bool.false_eq_true, if_false]
    by_cases h2 : final_path_of p out_ext ∈ fs
    · have hcond : (decide (final_path_of p out_ext ∈ fs) &&
          decide (final_path_of p out_ext ≠ p)) = true := by
        simp [h2, final_path_of_ne p out_ext]
      rw [if_pos hcond]
      exact unique_path_not_mem fs _
    · have hcond : (decide (final_path_of p out_ext ∈ fs) &&
          decide (final_path_of p out_ext ≠ p)) = false := by
        simp [h2]
      rw [if_neg (by rw [hcond]; decide)]
      exact h2

/-- Witness for C8: concrete instances of each selection mode. -/
theorem c8_backend_selection_witness :
    _choose_gpu_backend "libx265" "qsv" ["hevc_nvenc"] = some "qsv" ∧
    _choose_gpu_backend "libx265" "auto" ["hevc_qsv"] = some "qsv" ∧
    _choose_gpu_backend "libx264" "none" ["h264_nvenc"] = none := by
  refine ⟨?_, ?_, ?_⟩
  · exact (c8_backend_selection "libx265" "qsv" ["hevc_nvenc"]).2.2.1
      (by decide) (by decide) (by decide)
  · rw [(c8_backend_selection "libx265" "auto" ["hevc_qsv"]).2.2.2]
    decide
  · exact (c8_backend_selection "libx264" "none" ["h264_nvenc"]).1 rfl

/-! ### Semantic bridges for the verification gate -/

/-- The duration-verification condition, in rational-number terms. -/
theorem durations_match_iff {o n : PyFloat} (ho : 0 < o.den) (hn : 0 < n.den) :
    durations_match o n = true ↔
      0 < o.toRat ∧ 0 < n.toRat ∧ |o.toRat - n.toRat| ≤ 1 / 2 := by
  have habs : 0 < ((o.sub n).pyabs).den := by
    simp only [PyFloat.pyabs, PyFloat.sub]
    positivity
  rw [durations_match, Bool.and_eq_true, Bool.and_eq_true,
    PyFloat.lt_iff (by decide) ho, PyFloat.lt_iff (by decide) hn,
    PyFloat.le_iff habs (by decide),
    PyFloat.toRat_zero, PyFloat.toRat_pyabs,
    PyFloat.toRat_sub o n ho.ne' hn.ne']
  have hhalf : (PyFloat.toRat ⟨1, 2⟩) = 1 / 2 := by
    norm_num [PyFloat.toRat]
  rw [hhalf]
  tauto

/-- A duration mismatch forces the keep-original decision. -/
theorem effect_no_delete_of_mismatch (nd cd : Bool) (resp : String) :
    effect_no_delete nd cd false resp = true := by
  simp [effect_no_delete]

/-- The savings gate, in rational-number terms. -/
theorem savings_insufficient_iff (orig_size new_size : ℕ) (ms : PyFloat)
    (hms : 0 < ms.den) :
    savings_insufficient orig_size new_size ms = true ↔
      (orig_size : ℚ) * (1 - ms.toRat / 100) ≤ (new_size : ℚ) := by
  have hdiv : (ms.div (PyFloat.ofNat 100)).den = ms.den * 100 := by
    simp [PyFloat.div, PyFloat.ofNat]
  have hlhs : 0 < ((PyFloat.ofNat orig_size).mul
      ((PyFloat.ofNat 1).sub (ms.div (PyFloat.ofNat 100)))).den := by
    simp [PyFloat.mul, PyFloat.sub, PyFloat.div, PyFloat.ofNat]
    omega
  rw [savings_insufficient,
    PyFloat.le_iff hlhs (by simp [PyFloat.ofNat]),
    PyFloat.toRat_mul, PyFloat.toRat_sub _ _ (by decide) (by simp [PyFloat.div, PyFloat.ofNat]; omega),
    PyFloat.toRat_div, PyFloat.toRat_ofNat, PyFloat.toRat_ofNat, PyFloat.toRat_ofNat,
    PyFloat.toRat_ofNat]
  norm_num

/-- C1: for every candidate that reaches duration verification, if the
re-probed durations of original and temporary output are not both known
(positive) and within 0.5 seconds of each other, the original file is
never deleted, for every combination of the delete-related flags
(`--no-delete`/`--keep-original`, `--confirm-delete`) and every
interactive response. -/
theorem c1_duration_mismatch_never_deletes
    (orig_size new_size : ℕ) (min_saving : PyFloat)
    (no_delete confirm_delete : Bool) (resp : String)
    (o n : PyFloat) (origExists : Bool)
    (ho : 0 < o.den) (hn : 0 < n.den)
    (h : ¬(0 < o.toRat ∧ 0 < n.toRat ∧ |o.toRat - n.toRat| ≤ 1 / 2)) :
    (post_encode orig_size new_size min_saving no_delete confirm_delete resp o n
        origExists).originalDeleted = false := by
  rw [post_encode]
  by_cases hs : savings_insufficient orig_size new_size min_saving = true
  · rw [if_pos hs]
  · rw [if_neg hs]
    have hdm : durations_match o n = false := by
      rw [← Bool.not_eq_true, durations_match_iff ho hn]
      exact h
    simp only [hdm, effect_no_delete_of_mismatch, Bool.not_true, Bool.false_and]

/-- Witness for C1: both durations known but 2 seconds apart; deletion is
requested and confirmed, yet the original is kept. -/
theorem c1_witness :
    (post_encode 2000000000 1500000000 ⟨5, 1⟩ false true "y" ⟨100, 1⟩ ⟨102, 1⟩
        true).originalDeleted = false := by
  apply c1_duration_mismatch_never_deletes _ _ _ _ _ _ _ _ _ (by decide) (by decide)
  rintro ⟨-, -, h3⟩
  rw [abs_le] at h3
  norm_num [PyFloat.toRat] at h3

/-- C3: for every successfully encoded candidate with known output size,
if `output_size ≥ original_size × (1 − min_saving/100)` the attempt is
recorded as skipped with reason `insufficient_saving`, the temporary
artifact is deleted and the original is not deleted; if the output size
is strictly below that bound the candidate proceeds to duration
verification.  Concretely, at original size 2,000,000,000 and min-saving
5%, an output of 1,500,000,000 bytes passes the gate and one of
1,950,000,000 bytes fails it. -/
theorem c3_savings_gate
    (orig_size new_size : ℕ) (min_saving : PyFloat)
    (no_delete confirm_delete : Bool) (resp : String)
    (o n : PyFloat) (origExists : Bool) (hms : 0 < min_saving.den) :
    ((orig_size : ℚ) * (1 - min_saving.toRat / 100) ≤ (new_size : ℚ) →
      post_encode orig_size new_size min_saving no_delete confirm_delete resp o n origExists =
        { action := "skipped", reason := some "insufficient_saving",
          tmpDeleted := true, originalDeleted := false, reachedVerification := false }) ∧
    ((new_size : ℚ) < (orig_size : ℚ) * (1 - min_saving.toRat / 100) →
      (post_encode orig_size new_size min_saving no_delete confirm_delete resp o n
          origExists).reachedVerification = true) ∧
    ((post_encode 2000000000 1500000000 ⟨5, 1⟩ no_delete confirm_delete resp o n
        origExists).reachedVerification = true) ∧
    (post_encode 2000000000 1950000000 ⟨5, 1⟩ no_delete confirm_delete resp o n origExists =
      { action := "skipped", reason := some "insufficient_saving",
        tmpDeleted := true, originalDeleted := false, reachedVerification := false }) := by
  refine ⟨?_, ?_, ?_, ?_⟩
  · intro hle
    rw [post_encode, if_pos ((savings_insufficient_iff _ _ _ hms).mpr hle)]
  · intro hlt
    have hgate : ¬savings_insufficient orig_size new_size min_saving = true := by
      rw [savings_insufficient_iff _ _ _ hms]
      exact not_le.mpr hlt
    rw [post_encode, if_neg hgate]
  · rw [post_encode, if_neg (by decide)]
  · rw [post_encode, if_pos (by decide)]

/-- Witness for C3: the concrete scenario of the claim, via the gate
characterization. -/
theorem c3_witness :
    post_encode 2000000000 1950000000 ⟨5, 1⟩ false false "" ⟨100, 1⟩ ⟨100, 1⟩ true =
      { action := "skipped", reason := some "insufficient_saving",
        tmpDeleted := true, originalDeleted := false, reachedVerification := false } := by
  apply (c3_savings_gate 2000000000 1950000000 ⟨5, 1⟩ false false "" ⟨100, 1⟩ ⟨100, 1⟩ true
    (by decide)).1
  norm_num [PyFloat.toRat]

/-- C2 counterexample: with a bitrate threshold configured (1000 bps), a
known bitrate at or above it (2000 bps) and a size (10) below the
minimum (100), the source proceeds (`none`), while the claim's flat
first-match chain reaches its size rule and says `size_below_threshold`. -/
theorem c2_counterexample :
    skip_reason (some 1000) false (some ⟨2000, 1⟩) 10 100 = none ∧
    skip_reason_claimed (some 1000) false (some ⟨2000, 1⟩) 10 100 =
      some "size_below_threshold" := by
  decide

/-- C2 (amended): the verdict chain of the source — a configured
threshold with known bitrate below it gives `bitrate_below_threshold`;
with known bitrate at or above it the candidate proceeds regardless of
size; with unknown bitrate, `no_duration` under bitrate-only gating and
otherwise the size check; with no threshold configured, the size check —
and, in particular, with no bitrate threshold configured every candidate
below the minimum size gets verdict `skipped(size_below_threshold)` in
the main loop, so no encode is invoked for it. -/
theorem c2_skip_chain
    (mb : ℤ) (bitrate_only : Bool) (b : PyFloat) (orig_size : ℕ) (min_bytes : ℤ)
    (hb : 0 < b.den) :
    (b.toRat < (mb : ℚ) →
      skip_reason (some mb) bitrate_only (some b) orig_size min_bytes =
        some "bitrate_below_threshold") ∧
    (¬b.toRat < (mb : ℚ) →
      skip_reason (some mb) bitrate_only (some b) orig_size min_bytes = none) ∧
    (skip_reason (some mb) true none orig_size min_bytes = some "no_duration") ∧
    ((orig_size : ℤ) < min_bytes →
      skip_reason (some mb) false none orig_size min_bytes = some "size_below_threshold") ∧
    (¬(orig_size : ℤ) < min_bytes →
      skip_reason (some mb) false none orig_size min_bytes = none) ∧
    ((orig_size : ℤ) < min_bytes → ∀ bps,
      skip_reason none bitrate_only bps orig_size min_bytes = some "size_below_threshold") ∧
    (¬(orig_size : ℤ) < min_bytes → ∀ bps,
      skip_reason none bitrate_only bps orig_size min_bytes = none) ∧
    ((orig_size : ℤ) < min_bytes →
      ∀ (use_history : Bool) (hist : List String) (pathStr : String)
        (pb sr dr : Bool) (probe : ProbeOutcome),
        ¬(use_history = true ∧ lowerStr pathStr ∈ hist) →
        (candidate_step use_history hist pathStr pb sr dr none bitrate_only probe orig_size
          min_bytes).1 = FrontVerdict.skipped "size_below_threshold") := by
  have hlt_iff : PyFloat.lt b (PyFloat.ofInt mb) = true ↔ b.toRat < (mb : ℚ) := by
    rw [PyFloat.lt_iff hb Nat.one_pos, PyFloat.toRat_ofInt]
  have heq1 : ∀ (bo : Bool),
      skip_reason (some mb) bo (some b) orig_size min_bytes =
        if PyFloat.lt b (PyFloat.ofInt mb) then some "bitrate_below_threshold" else none :=
    fun _ => rfl
  have heq2 : ∀ (bo : Bool),
      skip_reason (some mb) bo none orig_size min_bytes =
        if bo then some "no_duration"
        else if (orig_size : ℤ) < min_bytes then some "size_below_threshold" else none :=
    fun _ => rfl
  have heq3 : ∀ (bo : Bool) (bps : Option PyFloat),
      skip_reason none bo bps orig_size min_bytes =
        if (orig_size : ℤ) < min_bytes then some "size_below_threshold" else none :=
    fun _ _ => rfl
  refine ⟨?_, ?_, ?_, ?_, ?_, ?_, ?_, ?_⟩
  · intro h
    rw [heq1, if_pos (hlt_iff.mpr h)]
  · intro h
    rw [heq1, if_neg (fun hc => h (hlt_iff.mp hc))]
  · rw [heq2, if_pos rfl]
  · intro h
    rw [heq2]
    simp only [Bool.false_eq_true, if_false]
    rw [if_pos h]
  · intro h
    rw [heq2]
    simp only [Bool.false_eq_true, if_false]
    rw [if_neg h]
  · intro h bps
    rw [heq3, if_pos h]
  · intro h bps
    rw [heq3, if_neg h]
  · intro h use_history hist pathStr pb sr dr probe hnohist
    rw [candidate_step]
    have hcond : (use_history && hist.contains (lowerStr pathStr)) = false := by
      cases use_history with
      | false => rfl
      | true =>
        rw [Bool.true_and, ← Bool.not_eq_true, List.contains, List.elem_eq_mem,
          decide_eq_true_eq]
        exact fun hmem => hnohist ⟨rfl, hmem⟩
    rw [if_neg (by rw [hcond]; decide)]
    simp only [heq3, if_pos h]

/-- Witness for C2: a below-threshold bitrate is skipped for bitrate, and
with no threshold configured a small candidate is skipped for size. -/
theorem c2_skip_chain_witness :
    skip_reason (some 1000000) false (some ⟨500000, 1⟩) 5 10 =
      some "bitrate_below_threshold" ∧
    skip_reason none false (some ⟨500000, 1⟩) 5 10 = some "size_below_threshold" := by
  refine ⟨?_, ?_⟩
  · apply (c2_skip_chain 1000000 false ⟨500000, 1⟩ 5 10 (by decide)).1
    norm_num [PyFloat.toRat]
  · exact (c2_skip_chain 1000000 false ⟨500000, 1⟩ 5 10 (by decide)).2.2.2.2.2.1
      (by decide) _

/-- One prior report's contribution to the history index, characterized. -/
theorem mem_reportSkippedPaths (norm : String → String) (rows : List HistRecord) (k : String) :
    k ∈ reportSkippedPaths norm rows ↔
      (¬∀ r ∈ rows, norm r.action ∈ (["dry_run", "summary", ""] : List String)) ∧
        ∃ r ∈ rows, norm r.action = "skipped" ∧
          ∃ p, r.path = some p ∧ p ≠ "" ∧ lowerStr p = k := by
  constructor
  · intro hk
    rw [reportSkippedPaths] at hk
    by_cases hs : reportSimOnly norm rows = true
    · rw [if_pos hs] at hk
      simp at hk
    · rw [if_neg hs] at hk
      rw [List.mem_filterMap] at hk
      obtain ⟨r, hr, hf⟩ := hk
      have hact : norm r.action = "skipped" := by
        by_contra hne
        rw [if_neg hne] at hf
        exact Option.noConfusion hf
      rw [if_pos hact] at hf
      cases hpath : r.path with
      | none =>
        simp [hpath] at hf
      | some p =>
        simp only [hpath] at hf
        have hpne : p ≠ "" := by
          by_contra he
          rw [if_pos he] at hf
          exact Option.noConfusion hf
        rw [if_neg hpne] at hf
        refine ⟨?_, r, hr, hact, p, hpath, hpne, Option.some.inj hf⟩
        intro hall
        have := hall r hr
        rw [hact] at this
        exact absurd this (by decide)
  · rintro ⟨hnall, r, hr, hact, p, hp, hpne, hlow⟩
    rw [reportSkippedPaths]
    have hs : ¬reportSimOnly norm rows = true := by
      rw [reportSimOnly, Bool.and_eq_true]
      rintro ⟨-, hall⟩
      rw [List.all_eq_true] at hall
      apply hnall
      intro r' hr'
      have := hall r' hr'
      simpa using this
    rw [if_neg hs, List.mem_filterMap]
    refine ⟨r, hr, ?_⟩
    simp [hact, hp, hpne, hlow]

/-- C4: the history index contains exactly the case-folded nonempty paths
of records with (normalized) action `skipped` drawn from the discovered
prior reports, excluding any report all of whose records' actions lie in
`{dry_run, summary, blank}`; and with resumability on, every candidate
whose case-folded path is in the index is immediately skipped with
reason `history`, with no probe call made for it. -/
theorem c4_history_index (csvReports jsonReports : List (List HistRecord)) :
    (∀ k, k ∈ history_paths csvReports jsonReports ↔
      ((∃ rows ∈ csvReports,
          (¬∀ r ∈ rows, actionNormCsv r.action ∈ (["dry_run", "summary", ""] : List String)) ∧
            ∃ r ∈ rows, actionNormCsv r.action = "skipped" ∧
              ∃ p, r.path = some p ∧ p ≠ "" ∧ lowerStr p = k) ∨
        (∃ rows ∈ jsonReports,
          (¬∀ r ∈ rows, actionNormJson r.action ∈ (["dry_run", "summary", ""] : List String)) ∧
            ∃ r ∈ rows, actionNormJson r.action = "skipped" ∧
              ∃ p, r.path = some p ∧ p ≠ "" ∧ lowerStr p = k))) ∧
    (∀ (pathStr : String) (pb sr dr bo : Bool) (mbps : Option ℤ) (probe : ProbeOutcome)
        (orig_size : ℕ) (min_bytes : ℤ),
      lowerStr pathStr ∈ history_paths csvReports jsonReports →
      candidate_step true (history_paths csvReports jsonReports) pathStr pb sr dr mbps bo
        probe orig_size min_bytes = (FrontVerdict.skipped "history", false)) := by
  constructor
  · intro k
    rw [history_paths, List.mem_append]
    simp only [List.mem_flatten, List.mem_map, mem_reportSkippedPaths]
    constructor
    · rintro (⟨l, ⟨rows, hrows, rfl⟩, hk⟩ | ⟨l, ⟨rows, hrows, rfl⟩, hk⟩)
      · exact Or.inl ⟨rows, hrows, (mem_reportSkippedPaths _ _ _).mp hk⟩
      · exact Or.inr ⟨rows, hrows, (mem_reportSkippedPaths _ _ _).mp hk⟩
    · rintro (⟨rows, hrows, hdata⟩ | ⟨rows, hrows, hdata⟩)
      · exact Or.inl ⟨_, ⟨rows, hrows, rfl⟩, (mem_reportSkippedPaths _ _ _).mpr hdata⟩
      · exact Or.inr ⟨_, ⟨rows, hrows, rfl⟩, (mem_reportSkippedPaths _ _ _).mpr hdata⟩
  · intro pathStr pb sr dr bo mbps probe orig_size min_bytes hmem
    rw [candidate_step]
    have hcond : (true && (history_paths csvReports jsonReports).contains
        (lowerStr pathStr)) = true := by
      rw [Bool.true_and, List.contains, List.elem_eq_mem, decide_eq_true_eq]
      exact hmem
    rw [if_pos hcond]

/-- Witness for C4: a one-record prior CSV report fast-skips a matching
candidate (case-insensitively) without probing. -/
theorem c4_history_index_witness :
    candidate_step true (history_paths [[⟨"skipped", some "/A/B.mkv"⟩]] []) "/a/b.MKV"
      true true true (some 1) true ProbeOutcome.subprocessError 5 10 =
      (FrontVerdict.skipped "history", false) := by
  exact (c4_history_index [[⟨"skipped", some "/A/B.mkv"⟩]] []).2 "/a/b.MKV" true true true
    true (some 1) ProbeOutcome.subprocessError 5 10 (by decide)

/-! ### Estimator bridges (C5) -/

/-- A value with positive denominator and positive rational value has a
positive numerator. -/
theorem num_pos_of_toRat_pos {x : PyFloat} (hden : 0 < x.den) (hpos : 0 < x.toRat) :
    0 < x.num := by
  by_contra hle
  push_neg at hle
  have h1 : (x.num : ℚ) ≤ 0 := by exact_mod_cast hle
  have h2 : (0 : ℚ) ≤ (x.den : ℚ) := by positivity
  have hnp : x.toRat ≤ 0 := by
    rw [PyFloat.toRat, div_nonpos_iff]
    exact Or.inr ⟨h1, h2⟩
  linarith

/-- The denominator of the final estimator expression is positive. -/
theorem estFinal_den_pos (X dur : PyFloat) (hX : 0 < X.den) (hdur : 0 < dur.den) :
    0 < ((X.mul dur).div (PyFloat.ofNat 8)).den := by
  rw [PyFloat.div, if_neg (by decide)]
  show 0 < (X.mul dur).den * (PyFloat.ofNat 8).num.toNat
  have hm : (X.mul dur).den = X.den * dur.den := rfl
  have h8 : (PyFloat.ofNat 8).num.toNat = 8 := rfl
  rw [hm, h8]
  exact Nat.mul_pos (Nat.mul_pos hX hdur) (by norm_num)

/-- The rational value of the final estimator expression. -/
theorem estFinal_toRat (X dur : PyFloat) :
    ((X.mul dur).div (PyFloat.ofNat 8)).toRat = X.toRat * dur.toRat / 8 := by
  rw [PyFloat.toRat_div, PyFloat.toRat_mul, PyFloat.toRat_ofNat]
  norm_num

/-- Ratio-mode estimator branch, in rational terms: the target total
bitrate is implied bitrate × ratio, floored at the audio bitrate, and the
estimated output is its byte count over the duration, truncated. -/
theorem estimateRatio_eq (er : Option PyFloat) (codec : String) (a : ℤ) (dur b : PyFloat)
    (hdur : 0 < dur.den) (hb : 0 < b.den)
    (hr : 0 < (er.getD (default_est_ratio codec)).den) :
    estimateRatio er codec (some a) dur (some b) =
      some (truncQ (max (b.toRat * (er.getD (default_est_ratio codec)).toRat) (a : ℚ) *
        dur.toRat / 8)) := by
  have heq : estimateRatio er codec (some a) dur (some b) =
      some ((((if PyFloat.lt (b.mul (er.getD (default_est_ratio codec))) (PyFloat.ofInt a) then
          PyFloat.ofInt a else b.mul (er.getD (default_est_ratio codec))).mul dur).div
          (PyFloat.ofNat 8)).trunc) := rfl
  have hmulden : 0 < (b.mul (er.getD (default_est_ratio codec))).den := by
    show 0 < b.den * (er.getD (default_est_ratio codec)).den
    exact Nat.mul_pos hb hr
  rw [heq]
  by_cases hc : PyFloat.lt (b.mul (er.getD (default_est_ratio codec))) (PyFloat.ofInt a) = true
  · rw [if_pos hc]
    have hlt := (PyFloat.lt_iff hmulden Nat.one_pos).mp hc
    rw [PyFloat.toRat_mul, PyFloat.toRat_ofInt] at hlt
    rw [PyFloat.trunc_eq_truncQ _ (estFinal_den_pos _ _ Nat.one_pos hdur), estFinal_toRat,
      PyFloat.toRat_ofInt, max_eq_right hlt.le]
  · rw [if_neg hc]
    have hcf : (b.mul (er.getD (default_est_ratio codec))).lt (PyFloat.ofInt a) = false :=
      Bool.eq_false_iff.mpr hc
    have hnlt := (PyFloat.lt_eq_false_iff hmulden
      (show 0 < (PyFloat.ofInt a).den from Nat.one_pos)).mp hcf
    rw [PyFloat.toRat_mul, PyFloat.toRat_ofInt] at hnlt
    have hge := not_lt.mp hnlt
    rw [PyFloat.trunc_eq_truncQ _ (estFinal_den_pos _ _ hmulden hdur), estFinal_toRat,
      PyFloat.toRat_mul, max_eq_left hge]

/-- Target-mode estimator branch, in rational terms: target video bitrate
plus audio bitrate, scaled by duration, truncated. -/
theorem estimateTarget_eq (s : String) (a v : ℤ) (dur : PyFloat)
    (hdur : 0 < dur.den) (hparse : _parse_bitrate s = some v) :
    estimateTarget s (some a) dur = some (truncQ (((v : ℚ) + a) * dur.toRat / 8)) := by
  rw [estimateTarget, hparse, Option.map_some']
  rw [PyFloat.trunc_eq_truncQ _ (estFinal_den_pos _ _ Nat.one_pos hdur), estFinal_toRat,
    PyFloat.toRat_ofInt]
  norm_num

/-- C5: the estimator — unknown duration gives an unknown estimate; in
ratio mode with known duration, implied bitrate is `size × 8 / duration`,
the target total bitrate is implied × ratio (default 0.6 for `libx265`,
0.85 otherwise) floored at the audio bitrate, and
`estimated_output_bytes = target_total_bitrate × duration / 8` (Python
`int` truncation); the saved-bytes estimate `size − estimated_output`
can be negative; in target mode the target total bitrate is the parsed
target video bitrate plus the audio bitrate, independent of the source
bitrate. -/
theorem c5_estimator (tvb : Option String) (er : Option PyFloat) (codec : String)
    (a : ℤ) (dur : PyFloat) (orig_size : ℕ) (hden : 0 < dur.den) :
    (¬0 < dur.toRat → ∀ est_mode bps,
      estimate est_mode tvb er codec (some a) dur bps = none) ∧
    (0 < dur.toRat → (∀ r, er = some r → 0 < r.den) →
      estimate "ratio" tvb er codec (some a) dur (bitrate_of orig_size dur) =
        some (truncQ (max ((orig_size : ℚ) * 8 / dur.toRat *
            ((er.map PyFloat.toRat).getD (if codec = "libx265" then 6 / 10 else 85 / 100)))
          (a : ℚ) * dur.toRat / 8))) ∧
    (0 < dur.toRat → ∀ (s : String) (v : ℤ), _parse_bitrate s = some v → s ≠ "" →
      ∀ bps, estimate "target" (some s) er codec (some a) dur bps =
        some (truncQ (((v : ℚ) + a) * dur.toRat / 8))) ∧
    (est_saved_of 100 (estimate "ratio" none none "libx265" (some 160000) ⟨100, 1⟩
        (bitrate_of 100 ⟨100, 1⟩)) = some (-1999900)) := by
  refine ⟨?_, ?_, ?_, by decide⟩
  · intro hnpos est_mode bps
    have hltf : PyFloat.lt PyFloat.zero dur = false := by
      rw [PyFloat.lt_eq_false_iff Nat.one_pos hden, PyFloat.toRat_zero]
      exact hnpos
    rw [estimate, if_neg (by rw [hltf]; decide)]
  · intro hpos her
    have hlt : PyFloat.lt PyFloat.zero dur = true := by
      rw [PyFloat.lt_iff Nat.one_pos hden, PyFloat.toRat_zero]
      exact hpos
    have hR : 0 < (er.getD (default_est_ratio codec)).den := by
      cases er with
      | some r => exact her r rfl
      | none =>
        show 0 < (default_est_ratio codec).den
        rw [default_est_ratio]
        by_cases h : codec = "libx265"
        · rw [if_pos h]
          decide
        · rw [if_neg h]
          decide
    have hnum : 0 < dur.num := num_pos_of_toRat_pos hden hpos
    have hBsome : bitrate_of orig_size dur =
        some (((PyFloat.ofNat orig_size).mul (PyFloat.ofNat 8)).div dur) := by
      rw [bitrate_of, if_pos hlt]
    have hBden : 0 < (((PyFloat.ofNat orig_size).mul (PyFloat.ofNat 8)).div dur).den := by
      have heq2 : ((PyFloat.ofNat orig_size).mul (PyFloat.ofNat 8)).div dur =
          ⟨((PyFloat.ofNat orig_size).mul (PyFloat.ofNat 8)).num * dur.den,
            ((PyFloat.ofNat orig_size).mul (PyFloat.ofNat 8)).den * dur.num.toNat⟩ := by
        rw [PyFloat.div, if_neg (by omega)]
      rw [heq2]
      show 0 < 1 * 1 * dur.num.toNat
      omega
    have hBQ : (((PyFloat.ofNat orig_size).mul (PyFloat.ofNat 8)).div dur).toRat =
        (orig_size : ℚ) * 8 / dur.toRat := by
      rw [PyFloat.toRat_div, PyFloat.toRat_mul, PyFloat.toRat_ofNat, PyFloat.toRat_ofNat]
      norm_num
    have hRQ : (er.getD (default_est_ratio codec)).toRat =
        (er.map PyFloat.toRat).getD (if codec = "libx265" then 6 / 10 else 85 / 100) := by
      cases er with
      | some r => rfl
      | none =>
        show (default_est_ratio codec).toRat = _
        rw [default_est_ratio, Option.map_none', Option.getD_none]
        by_cases h : codec = "libx265"
        · rw [if_pos h, if_pos h]
          norm_num [PyFloat.toRat]
        · rw [if_neg h, if_neg h]
          norm_num [PyFloat.toRat]
    rw [estimate, if_pos hlt, if_neg (by simp), hBsome,
      estimateRatio_eq er codec a dur _ hden hBden hR, hBQ, hRQ]
  · intro hpos s v hparse hs bps
    have hlt : PyFloat.lt PyFloat.zero dur = true := by
      rw [PyFloat.lt_iff Nat.one_pos hden, PyFloat.toRat_zero]
      exact hpos
    have hcond : (decide ("target" = "target") && truthyStr (some s)) = true := by
      simp [truthyStr, hs]
    rw [estimate, if_pos hlt, if_pos hcond]
    exact estimateTarget_eq s a v dur hden hparse

/-- Witness for C5: target mode at 1 Mbps video, zero audio, 2-second
duration estimates 250,000 bytes, independent of the source bitrate. -/
theorem c5_estimator_witness :
    estimate "target" (some "1M") none "libx265" (some 0) ⟨2, 1⟩ none = some 250000 := by
  have h := (c5_estimator (some "1M") none "libx265" 0 ⟨2, 1⟩ 100 (by decide)).2.2.1
    (by norm_num [PyFloat.toRat]) "1M" 1000000 (by decide) (by decide) none
  rw [h]
  have hval : (((1000000 : ℤ) : ℚ) + ((0 : ℤ) : ℚ)) * PyFloat.toRat ⟨2, 1⟩ / 8 =
      ((250000 : ℤ) : ℚ) := by
    norm_num [PyFloat.toRat]
  rw [hval, truncQ, if_pos (by norm_num), Int.floor_intCast]

end Transcode
